import Mathlib

/-!
Shallow embedding of the pixel-art processing core of FordPixelWizard
(src/PixelArtProcessor.h, src/PixelArtProcessor.cpp), together with proofs
about the pipeline's behaviour.

Modelling conventions:
* A cv::Mat of type CV_8UC3 is modelled by `Mat`: dimensions, a channel
  count, and a total pixel function.  Pixels are `Pix` (B,G,R as `Nat`,
  following the cv::Vec3b component order used throughout the source).
  cv::Mat::empty() is `rows * cols = 0`; the default-constructed sentinel
  cv::Mat{} is `emptyMat`.
* All float arithmetic in the source that is exact on the values that can
  actually occur (squared RGB distances of 8-bit colors, Floyd-Steinberg
  error times k/16, the sqrt-vs-threshold comparison in the outliner) is
  embedded as exact integer / rational arithmetic; comments at each
  definition justify the exactness.
* Calls into OpenCV whose result is genuinely floating-point or
  nondeterministic (cv::GaussianBlur, cv::kmeans plus the Lab color-space
  round trips, the float luminance in the outliner) are not code of this
  repository; they are abstracted as an explicit record `ExtFns` of external
  functions, universally quantified in the theorems that need them.
-/

/-- One BGR color sample, component order b, g, r exactly as cv::Vec3b
indices 0, 1, 2 in the source. -/
structure Pix where
  b : Nat
  g : Nat
  r : Nat
deriving DecidableEq, Repr

/-- A raster image: cv::Mat with `rows × cols` samples of `channels`
channels.  The pixel function is total; coordinates outside
`[0,rows) × [0,cols)` carry junk values (cv::Mat has no storage there). -/
structure Mat where
  rows : Nat
  cols : Nat
  channels : Nat
  px : Nat → Nat → Pix

/-- The empty/null sentinel image, `cv::Mat{}`. -/
def emptyMat : Mat := ⟨0, 0, 0, fun _ _ => ⟨0, 0, 0⟩⟩

/-- ClampInt from the anonymous namespace of PixelArtProcessor.cpp:
`std::max(lo, std::min(v, hi))`. -/
def clampInt (v lo hi : Int) : Int := max lo (min v hi)

/-- PixelArtProcessor::PalettePreset (PixelArtProcessor.h). -/
inductive PalettePreset where
  | Custom | NES | GameBoy | GameBoyPocket | Pico8 | CGA | EGA | Commodore64
deriving DecidableEq, Repr

/-- PixelArtProcessor::Params (PixelArtProcessor.h).  The three int fields
keep their C++ type `int` (ℤ); the four flags are bool. -/
structure Params where
  blockSize : Int := 8
  paletteSize : Int := 16
  preBlur : Bool := true
  edgeEnhance : Bool := false
  dither : Bool := false
  outline : Bool := false
  outlineThickness : Int := 1
  palettePreset : PalettePreset := .Custom

/-- External (OpenCV) functions used by the pipeline that are not code of
this repository and are floating-point or nondeterministic:
* `gaussianBlur k m` is cv::GaussianBlur with odd kernel size k;
* `kmeansQuantize k m` is the body of QuantizeWithKMeansLab after the
  cluster-count clamp: BGR→Lab, cv::kmeans with k clusters, rebuild from
  centers, Lab→BGR;
* `kmeansPalette k m` is the Lab cv::kmeans of QuantizeWithKMeansLabDither
  followed by the center→BGR conversion, yielding the palette list;
* `edgeSharpen m` is the float unsharp-mask core of
  ApplyEdgeEnhancementInPlace (GaussianBlur, float difference, clamp);
* `lum p` is the float expression
  int(0.299f*r + 0.587f*g + 0.114f*b) of ApplyPixelArtOutline. -/
structure ExtFns where
  gaussianBlur : Nat → Mat → Mat
  kmeansQuantize : Nat → Mat → Mat
  kmeansPalette : Nat → Mat → List Pix
  edgeSharpen : Mat → Mat
  lum : Pix → Int

/-- ColorDistanceSquared (PixelArtProcessor.cpp, anonymous namespace).
The C++ computes in float, but differences of 8-bit channel values and
their squares (≤ 3·255² = 195075 < 2²⁴) are exact in IEEE single
precision, so integer arithmetic is an exact embedding. -/
def ColorDistanceSquared (a c : Pix) : Int :=
  ((a.r : Int) - c.r) * ((a.r : Int) - c.r)
    + ((a.g : Int) - c.g) * ((a.g : Int) - c.g)
    + ((a.b : Int) - c.b) * ((a.b : Int) - c.b)

/-- PixelArtProcessor::GetPaletteColors: the constant preset tables,
copied verbatim (cv::Vec3b(b,g,r) literals in source order). -/
def GetPaletteColors : PalettePreset → List Pix
  | .NES =>
      [⟨124, 124, 124⟩, ⟨0, 0, 252⟩, ⟨0, 0, 188⟩, ⟨68, 40, 188⟩,
       ⟨148, 0, 132⟩, ⟨168, 0, 32⟩, ⟨168, 16, 0⟩, ⟨136, 20, 0⟩,
       ⟨80, 48, 0⟩, ⟨0, 120, 0⟩, ⟨0, 104, 0⟩, ⟨0, 88, 0⟩,
       ⟨0, 64, 88⟩, ⟨0, 0, 0⟩, ⟨0, 0, 0⟩, ⟨188, 188, 188⟩,
       ⟨0, 120, 248⟩, ⟨0, 88, 248⟩, ⟨104, 68, 252⟩, ⟨216, 0, 204⟩,
       ⟨228, 0, 88⟩, ⟨248, 56, 0⟩, ⟨228, 92, 16⟩, ⟨172, 124, 0⟩,
       ⟨0, 184, 0⟩, ⟨0, 168, 0⟩, ⟨0, 168, 68⟩, ⟨0, 136, 136⟩,
       ⟨248, 248, 248⟩, ⟨60, 188, 252⟩, ⟨104, 136, 252⟩, ⟨152, 120, 248⟩,
       ⟨248, 120, 248⟩, ⟨248, 88, 152⟩, ⟨248, 120, 88⟩, ⟨252, 160, 68⟩,
       ⟨248, 184, 0⟩, ⟨184, 248, 24⟩, ⟨88, 216, 84⟩, ⟨88, 248, 152⟩,
       ⟨0, 232, 216⟩, ⟨120, 120, 120⟩, ⟨252, 252, 252⟩, ⟨164, 228, 252⟩,
       ⟨184, 184, 248⟩, ⟨216, 184, 248⟩, ⟨248, 184, 248⟩, ⟨248, 164, 192⟩,
       ⟨240, 208, 176⟩, ⟨252, 224, 168⟩, ⟨248, 216, 120⟩, ⟨216, 248, 120⟩,
       ⟨184, 248, 184⟩, ⟨184, 248, 216⟩, ⟨0, 252, 252⟩, ⟨248, 216, 248⟩]
  | .GameBoy =>
      [⟨15, 56, 15⟩, ⟨48, 98, 48⟩, ⟨139, 172, 15⟩, ⟨155, 188, 15⟩]
  | .GameBoyPocket =>
      [⟨15, 15, 15⟩, ⟨79, 79, 79⟩, ⟨163, 163, 163⟩, ⟨255, 255, 255⟩]
  | .Pico8 =>
      [⟨0, 0, 0⟩, ⟨29, 43, 83⟩, ⟨126, 37, 83⟩, ⟨0, 135, 81⟩,
       ⟨171, 82, 54⟩, ⟨95, 87, 79⟩, ⟨194, 195, 199⟩, ⟨255, 241, 232⟩,
       ⟨255, 0, 77⟩, ⟨255, 163, 0⟩, ⟨255, 236, 39⟩, ⟨0, 228, 54⟩,
       ⟨41, 173, 255⟩, ⟨131, 118, 156⟩, ⟨255, 119, 168⟩, ⟨255, 204, 170⟩]
  | .CGA =>
      [⟨0, 0, 0⟩, ⟨85, 255, 255⟩, ⟨255, 85, 255⟩, ⟨255, 255, 255⟩]
  | .EGA =>
      [⟨0, 0, 0⟩, ⟨0, 0, 170⟩, ⟨0, 170, 0⟩, ⟨0, 170, 170⟩,
       ⟨170, 0, 0⟩, ⟨170, 0, 170⟩, ⟨170, 85, 0⟩, ⟨170, 170, 170⟩,
       ⟨85, 85, 85⟩, ⟨85, 85, 255⟩, ⟨85, 255, 85⟩, ⟨85, 255, 255⟩,
       ⟨255, 85, 85⟩, ⟨255, 85, 255⟩, ⟨255, 255, 85⟩, ⟨255, 255, 255⟩]
  | .Commodore64 =>
      [⟨0, 0, 0⟩, ⟨255, 255, 255⟩, ⟨136, 0, 0⟩, ⟨170, 255, 238⟩,
       ⟨204, 68, 204⟩, ⟨0, 204, 85⟩, ⟨0, 0, 170⟩, ⟨238, 238, 119⟩,
       ⟨221, 136, 85⟩, ⟨102, 68, 0⟩, ⟨255, 119, 119⟩, ⟨51, 51, 51⟩,
       ⟨119, 119, 119⟩, ⟨170, 255, 102⟩, ⟨0, 136, 255⟩, ⟨187, 187, 187⟩]
  | .Custom => []

/-- The linear scan of FindNearestPaletteColor after its first iteration:
at each entry, a strictly smaller squared distance replaces the current
best (so ties keep the earlier entry).  The source initializes minDist to
FLT_MAX, which every actual distance (≤ 195075) beats, so the first entry
always becomes the initial best. -/
def nearestGo (c : Pix) : List Pix → Pix → Int → Pix
  | [], best, _ => best
  | p :: rest, best, bestDist =>
      if ColorDistanceSquared c p < bestDist then
        nearestGo c rest p (ColorDistanceSquared c p)
      else
        nearestGo c rest best bestDist

/-- PixelArtProcessor::FindNearestPaletteColor.  The identical inline scan
inside QuantizeWithFixedPalette is also modelled by this function (same
initialization, same strict-< update, first index wins ties). -/
def FindNearestPaletteColor (c : Pix) (palette : List Pix) : Pix :=
  match palette with
  | [] => c
  | p :: rest => nearestGo c rest p (ColorDistanceSquared c p)

/-- Per-channel sum over the tile `[y0,y1) × [x0,x1)`, iterated exactly as
the nested pixel loops that cv::mean performs over the ROI. -/
def sumChan (m : Mat) (f : Pix → Nat) (y0 y1 x0 x1 : Nat) : Nat :=
  (List.range (y1 - y0)).foldl
    (fun acc dy =>
      (List.range (x1 - x0)).foldl
        (fun a dx => a + f (m.px (y0 + dy) (x0 + dx))) acc)
    0

/-- One cell of BuildBlockColorImageBGR: ROI bounds x0,y0,x1,y1 as in the
source, then `cv::mean` of the ROI cast to uchar per channel.  cv::mean
returns sum/count as double and the uchar cast truncates toward zero, so
for these magnitudes the cell value is exactly the floor `sum / count`
(the rational sum/count is at least 1/count ≥ 2⁻¹⁶ away from any
non-equal integer, far above double rounding error). -/
def blockMeanPix (m : Mat) (bs byi bxi w h : Nat) : Pix :=
  let x0 := bxi * bs
  let y0 := byi * bs
  let x1 := min (x0 + bs) w
  let y1 := min (y0 + bs) h
  let cnt := (x1 - x0) * (y1 - y0)
  ⟨sumChan m Pix.b y0 y1 x0 x1 / cnt,
   sumChan m Pix.g y0 y1 x0 x1 / cnt,
   sumChan m Pix.r y0 y1 x0 x1 / cnt⟩

/-- PixelArtProcessor::BuildBlockColorImageBGR.  Cells outside the
`bh × bw` grid keep the zero initialization of `cv::Mat small`. -/
def BuildBlockColorImageBGR (m : Mat) (blockSize : Int) : Mat :=
  if m.cols = 0 ∨ m.rows = 0 then emptyMat
  else
    let bs := (max 1 blockSize).toNat
    let bw := (m.cols + bs - 1) / bs
    let bh := (m.rows + bs - 1) / bs
    ⟨bh, bw, 3, fun byi bxi =>
      if byi < bh ∧ bxi < bw then blockMeanPix m bs byi bxi m.cols m.rows
      else ⟨0, 0, 0⟩⟩

/-- The cluster-count clamp of QuantizeWithKMeansLab and
QuantizeWithKMeansLabDither:
`paletteSize = std::max(2, std::min(paletteSize, total))`. -/
def effectiveClusterCount (paletteSize total : Int) : Int :=
  max 2 (min paletteSize total)

/-- PixelArtProcessor::QuantizeWithKMeansLab.  Everything after the
cluster-count clamp (Lab conversion, cv::kmeans, reconstruction) is the
external function `ext.kmeansQuantize`. -/
def QuantizeWithKMeansLab (ext : ExtFns) (smallBgr : Mat) (paletteSize : Int) : Mat :=
  if smallBgr.rows * smallBgr.cols = 0 ∨ smallBgr.channels ≠ 3 then emptyMat
  else
    let total : Int := (smallBgr.rows * smallBgr.cols : Nat)
    if total ≤ 0 then emptyMat
    else ext.kmeansQuantize (effectiveClusterCount paletteSize total).toNat smallBgr

/-- PixelArtProcessor::QuantizeWithFixedPalette.  The per-pixel scan is
the same linear nearest-color search as FindNearestPaletteColor (same
FLT_MAX initialization, same strict-< update). -/
def QuantizeWithFixedPalette (smallBgr : Mat) (preset : PalettePreset) : Mat :=
  if smallBgr.rows * smallBgr.cols = 0 ∨ smallBgr.channels ≠ 3 then emptyMat
  else
    let palette := GetPaletteColors preset
    if palette = [] then emptyMat
    else
      ⟨smallBgr.rows, smallBgr.cols, 3, fun y x =>
        FindNearestPaletteColor (smallBgr.px y x) palette⟩

/-- Write one pixel of a Mat (the in-place stores of the dither loops). -/
def setPx (m : Mat) (y x : Nat) (c : Pix) : Mat :=
  { m with px := fun y' x' => if y' = y ∧ x' = x then c else m.px y' x' }

/-- One neighbor update of the Floyd-Steinberg loops:
`clamp(int(chan + err * w/16), 0, 255)`.  chan and err are integers, so
chan + err·w/16 = (16·chan + err·w)/16 exactly (all float operations here
are exact: err·w ≤ 1785 and the sum is a multiple of 1/16 below 2¹²), and
the C++ float→int cast truncates toward zero, i.e. `Int.tdiv _ 16`. -/
def applyErr (chan : Nat) (err w : Int) : Nat :=
  (max 0 (min ((16 * (chan : Int) + err * w).tdiv 16) 255)).toNat

/-- Apply the error-diffusion update to all three channels of one
recipient pixel with Floyd-Steinberg numerator `w` (of w/16). -/
def diffuseAt (m : Mat) (y x : Nat) (eb eg er w : Int) : Mat :=
  setPx m y x
    ⟨applyErr (m.px y x).b eb w,
     applyErr (m.px y x).g eg w,
     applyErr (m.px y x).r er w⟩

/-- The per-channel clamp `ClampInt(int(pixel[c]), 0, 255)` applied to the
current pixel before quantization (a no-op for 8-bit data, kept for
fidelity to the source). -/
def clampPix255 (p : Pix) : Pix := ⟨min p.b 255, min p.g 255, min p.r 255⟩

/-- The body of one iteration of the Floyd-Steinberg double loop shared
verbatim by QuantizeWithFixedPaletteDither and QuantizeWithKMeansLabDither:
clamp the (possibly error-adjusted) pixel, map it to the nearest palette
color, overwrite it, then diffuse the quantization error to the in-bounds
right (7/16), below-left (3/16), below (5/16) and below-right (1/16)
neighbors with immediate clamping; out-of-bounds neighbors are skipped. -/
def ditherVisit (palette : List Pix) (y x : Nat) (m : Mat) : Mat :=
  let oldPixel := clampPix255 (m.px y x)
  let newPixel := FindNearestPaletteColor oldPixel palette
  let eb : Int := (oldPixel.b : Int) - newPixel.b
  let eg : Int := (oldPixel.g : Int) - newPixel.g
  let er : Int := (oldPixel.r : Int) - newPixel.r
  let m1 := setPx m y x newPixel
  let m2 := if x + 1 < m.cols then diffuseAt m1 y (x + 1) eb eg er 7 else m1
  if y + 1 < m.rows then
    let m3 := if 0 < x then diffuseAt m2 (y + 1) (x - 1) eb eg er 3 else m2
    let m4 := diffuseAt m3 (y + 1) x eb eg er 5
    if x + 1 < m.cols then diffuseAt m4 (y + 1) (x + 1) eb eg er 1 else m4
  else m2

/-- The Floyd-Steinberg double loop, linearized over the row-major rank
`i = y * cols + x`: rank i visits cell (i / cols, i % cols), so ranks
0, 1, 2, … enumerate exactly the source's left-to-right, top-to-bottom
double loop.  `fuel` is the number of cells still to visit. -/
def ditherLoop (palette : List Pix) (bw : Nat) : Nat → Nat → Mat → Mat
  | 0, _, m => m
  | fuel + 1, i, m =>
      ditherLoop palette bw fuel (i + 1) (ditherVisit palette (i / bw) (i % bw) m)

/-- The whole dithering pass over a work copy of the small image (rows ×
cols cells in row-major order). -/
def ditherPass (palette : List Pix) (m : Mat) : Mat :=
  ditherLoop palette m.cols (m.rows * m.cols) 0 m

/-- PixelArtProcessor::QuantizeWithFixedPaletteDither. -/
def QuantizeWithFixedPaletteDither (smallBgr : Mat) (preset : PalettePreset) : Mat :=
  if smallBgr.rows * smallBgr.cols = 0 ∨ smallBgr.channels ≠ 3 then emptyMat
  else
    let palette := GetPaletteColors preset
    if palette = [] then emptyMat
    else ditherPass palette smallBgr

/-- PixelArtProcessor::QuantizeWithKMeansLabDither: cluster-count clamp,
palette from Lab k-means (external `ext.kmeansPalette`), then the same
Floyd-Steinberg pass as the fixed-palette version. -/
def QuantizeWithKMeansLabDither (ext : ExtFns) (smallBgr : Mat) (paletteSize : Int) : Mat :=
  if smallBgr.rows * smallBgr.cols = 0 ∨ smallBgr.channels ≠ 3 then emptyMat
  else
    let total : Int := (smallBgr.rows * smallBgr.cols : Nat)
    if total ≤ 0 then emptyMat
    else
      let palette := ext.kmeansPalette (effectiveClusterCount paletteSize total).toNat smallBgr
      ditherPass palette smallBgr

/-- PixelArtProcessor::ExpandBlocksBGR.  The source zero-fills an
`outRows × outCols` image and paints each ROI
`[bx·bs, min(bx·bs+bs, cols)) × [by·bs, min(by·bs+bs, rows))` with the
corresponding small-image cell; pixel (y,x) of the result therefore holds
the cell `(y / bs, x / bs)` when that cell exists, and the zero fill
otherwise. -/
def ExpandBlocksBGR (smallBgr : Mat) (outRows outCols : Nat) (blockSize : Int) : Mat :=
  if smallBgr.rows * smallBgr.cols = 0 ∨ smallBgr.channels ≠ 3 then emptyMat
  else
    let bs := (max 1 blockSize).toNat
    ⟨outRows, outCols, 3, fun y x =>
      if y / bs < smallBgr.rows ∧ x / bs < smallBgr.cols then
        smallBgr.px (y / bs) (x / bs)
      else ⟨0, 0, 0⟩⟩

/-- PixelArtProcessor::ApplyEdgeEnhancementInPlace.  After the empty/type
guard, the unsharp mask (GaussianBlur, float difference, strength 0.7
fixed and inside its [0,2] clamp, final clamp/convert) is pure float
OpenCV work, abstracted as the external function `ext.edgeSharpen`. -/
def ApplyEdgeEnhancementInPlace (ext : ExtFns) (m : Mat) : Mat :=
  if m.rows * m.cols = 0 ∨ m.channels ≠ 3 then m
  else ext.edgeSharpen m

/-- Bounds test used when probing a neighbor or structuring-element
position of the outline stage. -/
def inBoundsI (rows cols : Nat) (y x : Int) : Bool :=
  0 ≤ y && y < (rows : Int) && 0 ≤ x && x < (cols : Int)

/-- Erosion of a binary mask by a structuring element given as offset
list.  cv::morphologyEx uses the default border value for erosion
(+DBL_MAX), so out-of-bounds positions never lower the minimum: the
result is the conjunction over the in-bounds offsets. -/
def erodeMask (offs : List (Int × Int)) (rows cols : Nat)
    (mask : Nat → Nat → Bool) : Nat → Nat → Bool :=
  fun y x =>
    offs.all fun o =>
      let yy := (y : Int) + o.1
      let xx := (x : Int) + o.2
      if inBoundsI rows cols yy xx then mask yy.toNat xx.toNat else true

/-- Dilation of a binary mask by a structuring element: the default
border value for dilation is -DBL_MAX, so out-of-bounds positions never
raise the maximum: the result is the disjunction over in-bounds offsets. -/
def dilateMask (offs : List (Int × Int)) (rows cols : Nat)
    (mask : Nat → Nat → Bool) : Nat → Nat → Bool :=
  fun y x =>
    offs.any fun o =>
      let yy := (y : Int) + o.1
      let xx := (x : Int) + o.2
      if inBoundsI rows cols yy xx then mask yy.toNat xx.toNat else false

/-- cv::getStructuringElement(MORPH_CROSS, 3×3): center row and column. -/
def crossOffsets : List (Int × Int) :=
  [(0, 0), (-1, 0), (1, 0), (0, -1), (0, 1)]

/-- cv::getStructuringElement(MORPH_RECT, (2t+1)×(2t+1)): the full
square of offsets in [-t, t]². -/
def squareOffsets (t : Nat) : List (Int × Int) :=
  (List.range (2 * t + 1)).flatMap fun i =>
    (List.range (2 * t + 1)).map fun j => ((i : Int) - t, (j : Int) - t)

/-- One neighbor comparison of the outline edge detector: luminance
difference at least 35, or color distance at least 40.  The C++ compares
`sqrtf(distSquared) >= 40.0f`; the squared distance is an exact integer
≤ 195075 and single-precision sqrt is correctly rounded, so that test is
exactly `distSquared ≥ 1600`. -/
def edgeNeighborTest (lum : Pix → Int) (cur : Pix) (lumCur : Int) (nb : Pix) : Bool :=
  decide (35 ≤ (lumCur - lum nb).natAbs) || decide ((1600 : Int) ≤ ColorDistanceSquared cur nb)

/-- The edge-detection mask of ApplyPixelArtOutline: a pixel is an edge
when any in-bounds 4-connected neighbor (checked right, bottom, left, top
with short-circuiting, here an equivalent disjunction) differs enough. -/
def edgeMaskOf (lum : Pix → Int) (m : Mat) : Nat → Nat → Bool :=
  fun y x =>
    let cur := m.px y x
    let lumCur := lum cur
    (decide (x + 1 < m.cols) && edgeNeighborTest lum cur lumCur (m.px y (x + 1)))
      || (decide (y + 1 < m.rows) && edgeNeighborTest lum cur lumCur (m.px (y + 1) x))
      || (decide (0 < x) && edgeNeighborTest lum cur lumCur (m.px y (x - 1)))
      || (decide (0 < y) && edgeNeighborTest lum cur lumCur (m.px (y - 1) x))

/-- The adaptive darkening of one edge pixel: base amount 70, 40 when the
average brightness (integer division by 3) is below 64, 90 when above
192; each channel floors at 0 (std::max(0, chan - amount), which on Nat
channels is truncated subtraction). -/
def darkenPix (p : Pix) : Pix :=
  let brightness := (p.b + p.g + p.r) / 3
  let amount : Nat := if brightness < 64 then 40 else if 192 < brightness then 90 else 70
  ⟨p.b - amount, p.g - amount, p.r - amount⟩

/-- PixelArtProcessor::ApplyPixelArtOutline: edge mask, morphological
shaping (opening with a 3×3 cross for thickness 1, dilation with a
(2t+1)² square otherwise), then adaptive darkening of masked pixels.
The mask stays 0/255-valued through the morphology, so the final
`edgeRow[x] > 128` test is exactly the Boolean mask. -/
def ApplyPixelArtOutline (lum : Pix → Int) (m : Mat) (thickness : Int) : Mat :=
  if m.rows * m.cols = 0 ∨ m.channels ≠ 3 then m
  else
    let t := (max 1 (min thickness 5)).toNat
    let edges := edgeMaskOf lum m
    let shaped :=
      if t = 1 then
        dilateMask crossOffsets m.rows m.cols
          (erodeMask crossOffsets m.rows m.cols edges)
      else dilateMask (squareOffsets t) m.rows m.cols edges
    { m with px := fun y x => if shaped y x then darkenPix (m.px y x) else m.px y x }

/-- PixelArtProcessor::Process: the full pipeline.  `CV_8UC3` is an
8-bit 3-channel type; the model carries the channel count, so the
`type() != CV_8UC3` guard is the channel test. -/
def Process (ext : ExtFns) (inputBgr : Mat) (params : Params) : Mat :=
  if inputBgr.rows * inputBgr.cols = 0 then emptyMat
  else if inputBgr.channels ≠ 3 then emptyMat
  else
    let bsI := clampInt params.blockSize 1 256
    let psI := clampInt params.paletteSize 2 256
    let work :=
      if params.preBlur then
        ext.gaussianBlur (max 3 ((bsI.toNat / 2) ||| 1)) inputBgr
      else inputBgr
    let smallBlocksBgr := BuildBlockColorImageBGR work bsI
    if smallBlocksBgr.rows * smallBlocksBgr.cols = 0 then emptyMat
    else
      let quantizedSmallBgr :=
        if params.dither then
          if params.palettePreset = .Custom then
            QuantizeWithKMeansLabDither ext smallBlocksBgr psI
          else QuantizeWithFixedPaletteDither smallBlocksBgr params.palettePreset
        else
          if params.palettePreset = .Custom then
            QuantizeWithKMeansLab ext smallBlocksBgr psI
          else QuantizeWithFixedPalette smallBlocksBgr params.palettePreset
      if quantizedSmallBgr.rows * quantizedSmallBgr.cols = 0 then emptyMat
      else
        let out := ExpandBlocksBGR quantizedSmallBgr inputBgr.rows inputBgr.cols bsI
        let out2 :=
          if params.edgeEnhance then
            if out.rows * out.cols = 0 then out
            else ApplyEdgeEnhancementInPlace ext out
          else out
        if params.outline then
          if out2.rows * out2.cols = 0 then out2
          else ApplyPixelArtOutline ext.lum out2 (clampInt params.outlineThickness 1 5)
        else out2

/-- The parameter record with every bounded field clamped to its
documented range (spec §3 / §7: blockSize to [1,256], paletteSize to
[2,256], outlineThickness to [1,5]). -/
def clampParams (p : Params) : Params :=
  { p with
    blockSize := clampInt p.blockSize 1 256
    paletteSize := clampInt p.paletteSize 2 256
    outlineThickness := clampInt p.outlineThickness 1 5 }

/-- A concrete instantiation of the external functions, used to evaluate
the pipeline at concrete inputs in closed statements.  The luminance
model is the exact-rational reading of int(0.299f·r+0.587f·g+0.114f·b);
every concrete fact proved below with `extId` is insensitive to the tiny
float deviation (the deciding comparisons are far from the thresholds).
The other fields are identity stubs for stages the concrete inputs do
not exercise (or that the corresponding theorem quantifies over). -/
def extId : ExtFns where
  gaussianBlur := fun _ m => m
  kmeansQuantize := fun _ m => { m with channels := 3 }
  kmeansPalette := fun _ _ => []
  edgeSharpen := fun m => m
  lum := fun p => ((299 * p.r + 587 * p.g + 114 * p.b : Nat) / 1000 : Nat)

/-- Modelled from the spec (§4.2): the representative tile color as the
spec words it with rounding to the NEAREST integer per channel
(round-half-up realization; the comparison input below avoids exact
halves, so any reading of "nearest" gives the same value).  Used only to
compare the spec's wording against `BuildBlockColorImageBGR`. -/
def specTileMeanRounded (m : Mat) (bs byi bxi : Nat) : Pix :=
  let x0 := bxi * bs
  let y0 := byi * bs
  let x1 := min (x0 + bs) m.cols
  let y1 := min (y0 + bs) m.rows
  let cnt := (x1 - x0) * (y1 - y0)
  ⟨(2 * (∑ y ∈ Finset.Ico y0 y1, ∑ x ∈ Finset.Ico x0 x1, (m.px y x).b) + cnt) / (2 * cnt),
   (2 * (∑ y ∈ Finset.Ico y0 y1, ∑ x ∈ Finset.Ico x0 x1, (m.px y x).g) + cnt) / (2 * cnt),
   (2 * (∑ y ∈ Finset.Ico y0 y1, ∑ x ∈ Finset.Ico x0 x1, (m.px y x).r) + cnt) / (2 * cnt)⟩

/-- The floor (truncated) per-channel arithmetic mean over the possibly
truncated tile, written with Finset sums; the amended C5 statement
equates the block reducer's cells with this value. -/
def specTileMeanFloor (m : Mat) (bs byi bxi : Nat) : Pix :=
  let x0 := bxi * bs
  let y0 := byi * bs
  let x1 := min (x0 + bs) m.cols
  let y1 := min (y0 + bs) m.rows
  let cnt := (x1 - x0) * (y1 - y0)
  ⟨(∑ y ∈ Finset.Ico y0 y1, ∑ x ∈ Finset.Ico x0 x1, (m.px y x).b) / cnt,
   (∑ y ∈ Finset.Ico y0 y1, ∑ x ∈ Finset.Ico x0 x1, (m.px y x).g) / cnt,
   (∑ y ∈ Finset.Ico y0 y1, ∑ x ∈ Finset.Ico x0 x1, (m.px y x).r) / cnt⟩

/-! ### Basic facts about the nearest-color search -/

lemma colorDistanceSquared_nonneg (a c : Pix) : 0 ≤ ColorDistanceSquared a c := by
  unfold ColorDistanceSquared
  have h1 := mul_self_nonneg ((a.r : Int) - c.r)
  have h2 := mul_self_nonneg ((a.g : Int) - c.g)
  have h3 := mul_self_nonneg ((a.b : Int) - c.b)
  linarith

lemma colorDistanceSquared_self (c : Pix) : ColorDistanceSquared c c = 0 := by
  simp [ColorDistanceSquared]

lemma colorDistanceSquared_eq_zero_iff (a c : Pix) :
    ColorDistanceSquared a c = 0 ↔ a = c := by
  constructor
  · intro h
    unfold ColorDistanceSquared at h
    have hr : (a.r : Int) = c.r := by nlinarith [sq_nonneg ((a.r : Int) - c.r), sq_nonneg ((a.g : Int) - c.g), sq_nonneg ((a.b : Int) - c.b)]
    have hg : (a.g : Int) = c.g := by nlinarith [sq_nonneg ((a.r : Int) - c.r), sq_nonneg ((a.g : Int) - c.g), sq_nonneg ((a.b : Int) - c.b)]
    have hb : (a.b : Int) = c.b := by nlinarith [sq_nonneg ((a.r : Int) - c.r), sq_nonneg ((a.g : Int) - c.g), sq_nonneg ((a.b : Int) - c.b)]
    cases a; cases c
    simp only [Pix.mk.injEq]
    exact ⟨by exact_mod_cast hb, by exact_mod_cast hg, by exact_mod_cast hr⟩
  · rintro rfl
    exact colorDistanceSquared_self a

lemma nearestGo_mem (c : Pix) (l : List Pix) (best : Pix) (bd : Int) :
    nearestGo c l best bd = best ∨ nearestGo c l best bd ∈ l := by
  induction l generalizing best bd with
  | nil => exact Or.inl rfl
  | cons p rest ih =>
      simp only [nearestGo]
      split
      · rcases ih p (ColorDistanceSquared c p) with h | h
        · exact Or.inr (by simp [h])
        · exact Or.inr (List.mem_cons_of_mem _ h)
      · rcases ih best bd with h | h
        · exact Or.inl h
        · exact Or.inr (List.mem_cons_of_mem _ h)

lemma nearestGo_dist_le (c : Pix) (l : List Pix) (best : Pix) (bd : Int)
    (hbd : ColorDistanceSquared c best ≤ bd) :
    ColorDistanceSquared c (nearestGo c l best bd) ≤ bd ∧
      ∀ q ∈ l, ColorDistanceSquared c (nearestGo c l best bd) ≤ ColorDistanceSquared c q := by
  induction l generalizing best bd with
  | nil => exact ⟨hbd, by simp⟩
  | cons p rest ih =>
      simp only [nearestGo]
      split
      · rename_i hlt
        obtain ⟨h1, h2⟩ := ih p (ColorDistanceSquared c p) le_rfl
        refine ⟨le_trans h1 (le_of_lt hlt), ?_⟩
        intro q hq
        rcases List.mem_cons.mp hq with rfl | hq
        · exact h1
        · exact h2 q hq
      · rename_i hge
        obtain ⟨h1, h2⟩ := ih best bd hbd
        refine ⟨h1, ?_⟩
        intro q hq
        rcases List.mem_cons.mp hq with rfl | hq
        · exact le_trans h1 (le_of_not_lt hge)
        · exact h2 q hq

lemma findNearestPaletteColor_mem (c : Pix) (palette : List Pix) (h : palette ≠ []) :
    FindNearestPaletteColor c palette ∈ palette := by
  cases palette with
  | nil => exact absurd rfl h
  | cons p rest =>
      simp only [FindNearestPaletteColor]
      rcases nearestGo_mem c rest p (ColorDistanceSquared c p) with h' | h'
      · simp [h']
      · exact List.mem_cons_of_mem _ h'

lemma findNearestPaletteColor_dist_le (c : Pix) (palette : List Pix)
    (q : Pix) (hq : q ∈ palette) :
    ColorDistanceSquared c (FindNearestPaletteColor c palette) ≤
      ColorDistanceSquared c q := by
  cases palette with
  | nil => cases hq
  | cons p rest =>
      simp only [FindNearestPaletteColor]
      obtain ⟨h1, h2⟩ := nearestGo_dist_le c rest p (ColorDistanceSquared c p) le_rfl
      rcases List.mem_cons.mp hq with rfl | hq
      · exact h1
      · exact h2 q hq

/-- A color already in the palette maps to itself: its own distance is 0,
which is minimal, and any tying entry is the same color. -/
lemma findNearestPaletteColor_self (c : Pix) (palette : List Pix) (h : c ∈ palette) :
    FindNearestPaletteColor c palette = c := by
  have hle := findNearestPaletteColor_dist_le c palette c h
  rw [colorDistanceSquared_self] at hle
  have h0 : ColorDistanceSquared c (FindNearestPaletteColor c palette) = 0 :=
    le_antisymm hle (colorDistanceSquared_nonneg _ _)
  exact ((colorDistanceSquared_eq_zero_iff _ _).mp h0).symm

lemma findNearestPaletteColor_idem (c : Pix) (palette : List Pix) :
    FindNearestPaletteColor (FindNearestPaletteColor c palette) palette =
      FindNearestPaletteColor c palette := by
  cases palette with
  | nil => rfl
  | cons p rest =>
      exact findNearestPaletteColor_self _ _
        (findNearestPaletteColor_mem c (p :: rest) (by simp))

/-- Every non-Custom preset has a nonempty palette table. -/
lemma getPaletteColors_ne_nil (preset : PalettePreset) (h : preset ≠ .Custom) :
    GetPaletteColors preset ≠ [] := by
  cases preset <;> simp_all [GetPaletteColors]

/-! ### The Floyd-Steinberg pass: dimension preservation and the
row-major write discipline (a visit only writes its own cell and cells of
strictly larger row-major rank) -/

lemma setPx_dims (m : Mat) (y x : Nat) (c : Pix) :
    (setPx m y x c).rows = m.rows ∧ (setPx m y x c).cols = m.cols ∧
      (setPx m y x c).channels = m.channels := by
  simp [setPx]

lemma setPx_px_ne (m : Mat) (y x : Nat) (c : Pix) (y' x' : Nat)
    (h : ¬(y' = y ∧ x' = x)) : (setPx m y x c).px y' x' = m.px y' x' := by
  simp [setPx, h]

lemma diffuseAt_dims (m : Mat) (y x : Nat) (eb eg er w : Int) :
    (diffuseAt m y x eb eg er w).rows = m.rows ∧
      (diffuseAt m y x eb eg er w).cols = m.cols ∧
      (diffuseAt m y x eb eg er w).channels = m.channels := by
  simp [diffuseAt, setPx]

lemma diffuseAt_px_ne (m : Mat) (y x : Nat) (eb eg er w : Int) (y' x' : Nat)
    (h : ¬(y' = y ∧ x' = x)) :
    (diffuseAt m y x eb eg er w).px y' x' = m.px y' x' :=
  setPx_px_ne _ _ _ _ _ _ h

lemma ditherVisit_dims (palette : List Pix) (y x : Nat) (m : Mat) :
    (ditherVisit palette y x m).rows = m.rows ∧
      (ditherVisit palette y x m).cols = m.cols ∧
      (ditherVisit palette y x m).channels = m.channels := by
  unfold ditherVisit
  split_ifs <;> simp [diffuseAt, setPx]

/-- A dither visit at (y,x) leaves every cell that precedes (y,x) in
row-major order unchanged: all its writes target (y,x) itself or cells
strictly later in the scan. -/
lemma ditherVisit_px_earlier (palette : List Pix) (y x y0 x0 : Nat) (m : Mat)
    (hlt : y0 < y ∨ (y0 = y ∧ x0 < x)) :
    (ditherVisit palette y x m).px y0 x0 = m.px y0 x0 := by
  have hne_self : ¬(y0 = y ∧ x0 = x) := by omega
  have hne_r : ¬(y0 = y ∧ x0 = x + 1) := by omega
  have hne_dl : ¬(y0 = y + 1 ∧ x0 = x - 1) := by omega
  have hne_d : ¬(y0 = y + 1 ∧ x0 = x) := by omega
  have hne_dr : ¬(y0 = y + 1 ∧ x0 = x + 1) := by omega
  unfold ditherVisit
  split_ifs <;>
    simp only [diffuseAt_px_ne _ _ _ _ _ _ _ _ _ hne_dr,
      diffuseAt_px_ne _ _ _ _ _ _ _ _ _ hne_d,
      diffuseAt_px_ne _ _ _ _ _ _ _ _ _ hne_dl,
      diffuseAt_px_ne _ _ _ _ _ _ _ _ _ hne_r,
      setPx_px_ne _ _ _ _ _ _ hne_self]

/-- After its visit, a cell holds the nearest palette color of its
clamped accumulated value: the error-diffusion writes of the same visit
all go to other cells. -/
lemma ditherVisit_px_self (palette : List Pix) (y x : Nat) (m : Mat) :
    (ditherVisit palette y x m).px y x =
      FindNearestPaletteColor (clampPix255 (m.px y x)) palette := by
  have hne_r : ¬(y = y ∧ x = x + 1) := by omega
  have hne_dl : ¬(y = y + 1 ∧ x = x - 1) := by omega
  have hne_d : ¬(y = y + 1 ∧ x = x) := by omega
  have hne_dr : ¬(y = y + 1 ∧ x = x + 1) := by omega
  unfold ditherVisit
  split_ifs <;>
    simp only [diffuseAt_px_ne _ _ _ _ _ _ _ _ _ hne_dr,
      diffuseAt_px_ne _ _ _ _ _ _ _ _ _ hne_d,
      diffuseAt_px_ne _ _ _ _ _ _ _ _ _ hne_dl,
      diffuseAt_px_ne _ _ _ _ _ _ _ _ _ hne_r] <;>
    simp [setPx]

lemma ditherLoop_dims (palette : List Pix) (bw fuel i : Nat) (m : Mat) :
    (ditherLoop palette bw fuel i m).rows = m.rows ∧
      (ditherLoop palette bw fuel i m).cols = m.cols ∧
      (ditherLoop palette bw fuel i m).channels = m.channels := by
  induction fuel generalizing i m with
  | zero => exact ⟨rfl, rfl, rfl⟩
  | succ n ih =>
      obtain ⟨h1, h2, h3⟩ := ih (i + 1) (ditherVisit palette (i / bw) (i % bw) m)
      obtain ⟨g1, g2, g3⟩ := ditherVisit_dims palette (i / bw) (i % bw) m
      exact ⟨h1.trans g1, h2.trans g2, h3.trans g3⟩

/-- Ranks below the loop counter are never written again. -/
lemma ditherLoop_px_earlier (palette : List Pix) (bw : Nat) (hbw : 0 < bw)
    (fuel : Nat) :
    ∀ (i : Nat) (m : Mat) (y0 x0 : Nat), x0 < bw → y0 * bw + x0 < i →
      (ditherLoop palette bw fuel i m).px y0 x0 = m.px y0 x0 := by
  induction fuel with
  | zero => intro i m y0 x0 _ _; rfl
  | succ n ih =>
      intro i m y0 x0 hx0 hrank
      have hstep : (ditherVisit palette (i / bw) (i % bw) m).px y0 x0 = m.px y0 x0 := by
        apply ditherVisit_px_earlier
        have hmod : i % bw < bw := Nat.mod_lt _ hbw
        have hdm : (i / bw) * bw + i % bw = i := by
          rw [Nat.mul_comm]; exact Nat.div_add_mod i bw
        rcases Nat.lt_trichotomy y0 (i / bw) with h' | h' | h'
        · exact Or.inl h'
        · subst h'; right; constructor; rfl; omega
        · exfalso
          have hm : (i / bw + 1) * bw ≤ y0 * bw := Nat.mul_le_mul_right bw h'
          rw [Nat.succ_mul] at hm
          omega
      simp only [ditherLoop]
      rw [ih (i + 1) _ y0 x0 hx0 (by omega), hstep]

/-- Every cell visited by the remaining loop iterations ends up holding a
palette entry (for a nonempty palette). -/
lemma ditherLoop_px_mem (palette : List Pix) (hpal : palette ≠ [])
    (bw : Nat) (hbw : 0 < bw) (fuel : Nat) :
    ∀ (i : Nat) (m : Mat) (y0 x0 : Nat), x0 < bw →
      i ≤ y0 * bw + x0 → y0 * bw + x0 < i + fuel →
      (ditherLoop palette bw fuel i m).px y0 x0 ∈ palette := by
  induction fuel with
  | zero => intro i m y0 x0 _ h1 h2; omega
  | succ n ih =>
      intro i m y0 x0 hx0 h1 h2
      rcases Nat.eq_or_lt_of_le h1 with heq | hlt
      · -- this is the iteration that visits (y0, x0)
        have hy0 : y0 = i / bw := by
          rw [heq, Nat.add_comm, Nat.add_mul_div_right _ _ hbw,
            Nat.div_eq_of_lt hx0, Nat.zero_add]
        have hx0' : x0 = i % bw := by
          rw [heq, Nat.add_comm, Nat.add_mul_mod_self_right,
            Nat.mod_eq_of_lt hx0]
        simp only [ditherLoop]
        rw [ditherLoop_px_earlier palette bw hbw n (i + 1) _ y0 x0 hx0 (by omega)]
        rw [hy0, hx0', ditherVisit_px_self]
        exact findNearestPaletteColor_mem _ _ hpal
      · simp only [ditherLoop]
        exact ih (i + 1) _ y0 x0 hx0 hlt (by omega)

/-- Dimensions of the whole dithering pass. -/
lemma ditherPass_dims (palette : List Pix) (m : Mat) :
    (ditherPass palette m).rows = m.rows ∧ (ditherPass palette m).cols = m.cols ∧
      (ditherPass palette m).channels = m.channels :=
  ditherLoop_dims palette m.cols (m.rows * m.cols) 0 m

/-- Main property of the pass: every in-bounds cell of the dithered grid
is a palette entry. -/
lemma ditherPass_px_mem (palette : List Pix) (hpal : palette ≠ []) (m : Mat)
    (y0 x0 : Nat) (hy0 : y0 < m.rows) (hx0 : x0 < m.cols) :
    (ditherPass palette m).px y0 x0 ∈ palette := by
  have hbw : 0 < m.cols := Nat.lt_of_le_of_lt (Nat.zero_le x0) hx0
  apply ditherLoop_px_mem palette hpal m.cols hbw (m.rows * m.cols) 0 m y0 x0 hx0
    (Nat.zero_le _)
  have h1 : (y0 + 1) * m.cols ≤ m.rows * m.cols := Nat.mul_le_mul_right _ hy0
  rw [Nat.succ_mul] at h1
  omega

/-! ### Shape lemmas for the individual pipeline stages -/

lemma toNat_max_one_pos (v : Int) : 0 < (max 1 v).toNat := by
  have h := le_max_left 1 v
  omega

/-- ceil(n / bs) formulas used by the block reducer: positivity. -/
lemma ceilDiv_pos {n bs : Nat} (hn : 0 < n) (hbs : 0 < bs) :
    0 < (n + bs - 1) / bs :=
  Nat.div_pos (by omega) hbs

/-- Every in-bounds source coordinate falls in a block of the
`ceil(n/bs)`-sized grid. -/
lemma div_lt_ceilDiv {x n bs : Nat} (hbs : 0 < bs) (hx : x < n) :
    x / bs < (n + bs - 1) / bs := by
  have h1 : x / bs ≤ (n - 1) / bs := Nat.div_le_div_right (by omega)
  have h2 : (n + bs - 1) / bs = (n - 1) / bs + 1 := by
    have h3 : n + bs - 1 = (n - 1) + bs := by omega
    rw [h3, Nat.add_div_right _ hbs]
  omega

lemma buildBlock_rows (m : Mat) (bsI : Int) (hc : m.cols ≠ 0) (hr : m.rows ≠ 0) :
    (BuildBlockColorImageBGR m bsI).rows =
      (m.rows + (max 1 bsI).toNat - 1) / (max 1 bsI).toNat := by
  simp [BuildBlockColorImageBGR, hc, hr]

lemma buildBlock_cols (m : Mat) (bsI : Int) (hc : m.cols ≠ 0) (hr : m.rows ≠ 0) :
    (BuildBlockColorImageBGR m bsI).cols =
      (m.cols + (max 1 bsI).toNat - 1) / (max 1 bsI).toNat := by
  simp [BuildBlockColorImageBGR, hc, hr]

lemma buildBlock_channels (m : Mat) (bsI : Int) (hc : m.cols ≠ 0) (hr : m.rows ≠ 0) :
    (BuildBlockColorImageBGR m bsI).channels = 3 := by
  simp [BuildBlockColorImageBGR, hc, hr]

lemma buildBlock_px (m : Mat) (bsI : Int) (hc : m.cols ≠ 0) (hr : m.rows ≠ 0)
    (byi bxi : Nat)
    (hby : byi < (m.rows + (max 1 bsI).toNat - 1) / (max 1 bsI).toNat)
    (hbx : bxi < (m.cols + (max 1 bsI).toNat - 1) / (max 1 bsI).toNat) :
    (BuildBlockColorImageBGR m bsI).px byi bxi =
      blockMeanPix m (max 1 bsI).toNat byi bxi m.cols m.rows := by
  simp [BuildBlockColorImageBGR, hc, hr, hby, hbx]

lemma quantizeFixed_eq (m : Mat) (preset : PalettePreset)
    (hm : m.rows * m.cols ≠ 0) (h3 : m.channels = 3)
    (hpal : GetPaletteColors preset ≠ []) :
    QuantizeWithFixedPalette m preset =
      ⟨m.rows, m.cols, 3, fun y x =>
        FindNearestPaletteColor (m.px y x) (GetPaletteColors preset)⟩ := by
  simp [QuantizeWithFixedPalette, hm, h3, hpal]

lemma quantizeFixedDither_eq (m : Mat) (preset : PalettePreset)
    (hm : m.rows * m.cols ≠ 0) (h3 : m.channels = 3)
    (hpal : GetPaletteColors preset ≠ []) :
    QuantizeWithFixedPaletteDither m preset =
      ditherPass (GetPaletteColors preset) m := by
  simp [QuantizeWithFixedPaletteDither, hm, h3, hpal]

lemma quantizeKMeans_eq (ext : ExtFns) (m : Mat) (psI : Int)
    (hm : m.rows * m.cols ≠ 0) (h3 : m.channels = 3) :
    QuantizeWithKMeansLab ext m psI =
      ext.kmeansQuantize
        (effectiveClusterCount psI (m.rows * m.cols : Nat)).toNat m := by
  unfold QuantizeWithKMeansLab
  rw [if_neg (by simp [hm, h3]), if_neg (by exact_mod_cast Nat.pos_of_ne_zero hm |>.not_le)]

lemma quantizeKMeansDither_eq (ext : ExtFns) (m : Mat) (psI : Int)
    (hm : m.rows * m.cols ≠ 0) (h3 : m.channels = 3) :
    QuantizeWithKMeansLabDither ext m psI =
      ditherPass
        (ext.kmeansPalette (effectiveClusterCount psI (m.rows * m.cols : Nat)).toNat m)
        m := by
  unfold QuantizeWithKMeansLabDither
  rw [if_neg (by simp [hm, h3]), if_neg (by exact_mod_cast Nat.pos_of_ne_zero hm |>.not_le)]

lemma expand_eq (small : Mat) (outR outC : Nat) (bsI : Int)
    (hm : small.rows * small.cols ≠ 0) (h3 : small.channels = 3) :
    ExpandBlocksBGR small outR outC bsI =
      ⟨outR, outC, 3, fun y x =>
        if y / (max 1 bsI).toNat < small.rows ∧ x / (max 1 bsI).toNat < small.cols then
          small.px (y / (max 1 bsI).toNat) (x / (max 1 bsI).toNat)
        else ⟨0, 0, 0⟩⟩ := by
  simp [ExpandBlocksBGR, hm, h3]

lemma applyEdgeEnhancement_dims (ext : ExtFns) (m : Mat)
    (he : ∀ m', (ext.edgeSharpen m').rows = m'.rows ∧ (ext.edgeSharpen m').cols = m'.cols ∧
      (ext.edgeSharpen m').channels = m'.channels) :
    (ApplyEdgeEnhancementInPlace ext m).rows = m.rows ∧
      (ApplyEdgeEnhancementInPlace ext m).cols = m.cols ∧
      (ApplyEdgeEnhancementInPlace ext m).channels = m.channels := by
  unfold ApplyEdgeEnhancementInPlace
  split_ifs
  · exact ⟨rfl, rfl, rfl⟩
  · exact he m

lemma applyOutline_dims (lum : Pix → Int) (m : Mat) (t : Int) :
    (ApplyPixelArtOutline lum m t).rows = m.rows ∧
      (ApplyPixelArtOutline lum m t).cols = m.cols ∧
      (ApplyPixelArtOutline lum m t).channels = m.channels := by
  unfold ApplyPixelArtOutline
  split_ifs <;> exact ⟨rfl, rfl, rfl⟩

/-- The pipeline's "skip when empty" guard before edge enhancement is
redundant: ApplyEdgeEnhancementInPlace is the identity on empty images. -/
lemma guard_applyEdge (ext : ExtFns) (m : Mat) :
    (if m.rows * m.cols = 0 then m else ApplyEdgeEnhancementInPlace ext m) =
      ApplyEdgeEnhancementInPlace ext m := by
  split_ifs with h
  · unfold ApplyEdgeEnhancementInPlace
    rw [if_pos (Or.inl h)]
  · rfl

/-- Likewise for the outline pass. -/
lemma guard_applyOutline (lum : Pix → Int) (m : Mat) (t : Int) :
    (if m.rows * m.cols = 0 then m else ApplyPixelArtOutline lum m t) =
      ApplyPixelArtOutline lum m t := by
  split_ifs with h
  · unfold ApplyPixelArtOutline
    rw [if_pos (Or.inl h)]
  · rfl

/-- Central pipeline lemma: for a valid input and dimension-preserving
external functions, Process takes the main path: the quantized tile grid
q has the ceil(dims/blockSize) shape, holds only palette entries when a
fixed preset is selected, and the result is the expansion of q followed
by the two optional post-passes. -/
lemma process_eq_core (ext : ExtFns) (img : Mat) (p : Params)
    (h3 : img.channels = 3) (hr : 0 < img.rows) (hc : 0 < img.cols)
    (hg : ∀ k m', (ext.gaussianBlur k m').rows = m'.rows ∧
      (ext.gaussianBlur k m').cols = m'.cols)
    (hk : p.palettePreset = .Custom → ∀ k m',
      (ext.kmeansQuantize k m').rows = m'.rows ∧
      (ext.kmeansQuantize k m').cols = m'.cols ∧
      (ext.kmeansQuantize k m').channels = 3) :
    ∃ q : Mat,
      q.rows = (img.rows + (max 1 (clampInt p.blockSize 1 256)).toNat - 1) /
          (max 1 (clampInt p.blockSize 1 256)).toNat ∧
      q.cols = (img.cols + (max 1 (clampInt p.blockSize 1 256)).toNat - 1) /
          (max 1 (clampInt p.blockSize 1 256)).toNat ∧
      q.channels = 3 ∧
      (p.palettePreset ≠ .Custom → ∀ y x, y < q.rows → x < q.cols →
        q.px y x ∈ GetPaletteColors p.palettePreset) ∧
      Process ext img p =
        (let out := ExpandBlocksBGR q img.rows img.cols (clampInt p.blockSize 1 256)
         let out2 := if p.edgeEnhance then ApplyEdgeEnhancementInPlace ext out else out
         if p.outline then
           ApplyPixelArtOutline ext.lum out2 (clampInt p.outlineThickness 1 5)
         else out2) := by
  have hne : img.rows * img.cols ≠ 0 := (Nat.mul_pos hr hc).ne'
  set bsI := clampInt p.blockSize 1 256 with hbsI
  set psI := clampInt p.paletteSize 2 256 with hpsI
  set bsN := (max 1 bsI).toNat with hbsN
  have hbsNpos : 0 < bsN := toNat_max_one_pos bsI
  set w := (if p.preBlur then ext.gaussianBlur (max 3 ((bsI.toNat / 2) ||| 1)) img else img)
    with hw
  have hwr : w.rows = img.rows := by
    rw [hw]; cases hpb : p.preBlur
    · simp
    · simp [(hg _ img).1]
  have hwc : w.cols = img.cols := by
    rw [hw]; cases hpb : p.preBlur
    · simp
    · simp [(hg _ img).2]
  set small := BuildBlockColorImageBGR w bsI with hsmall
  have hsr : small.rows = (img.rows + bsN - 1) / bsN := by
    rw [hsmall, buildBlock_rows w bsI (by omega) (by omega), hwr]
  have hsc : small.cols = (img.cols + bsN - 1) / bsN := by
    rw [hsmall, buildBlock_cols w bsI (by omega) (by omega), hwc]
  have hs3 : small.channels = 3 := buildBlock_channels w bsI (by omega) (by omega)
  have hsrpos : 0 < small.rows := by rw [hsr]; exact ceilDiv_pos hr hbsNpos
  have hscpos : 0 < small.cols := by rw [hsc]; exact ceilDiv_pos hc hbsNpos
  have hsne : small.rows * small.cols ≠ 0 := (Nat.mul_pos hsrpos hscpos).ne'
  -- perform the branch analysis on the quantizer
  by_cases hcu : p.palettePreset = PalettePreset.Custom
  · cases hd : p.dither
    · -- Custom, no dither: the k-means quantizer
      refine ⟨QuantizeWithKMeansLab ext small psI, ?_, ?_, ?_, ?_, ?_⟩
      · rw [quantizeKMeans_eq ext small psI hsne hs3, (hk hcu _ _).1, hsr]
      · rw [quantizeKMeans_eq ext small psI hsne hs3, (hk hcu _ _).2.1, hsc]
      · rw [quantizeKMeans_eq ext small psI hsne hs3, (hk hcu _ _).2.2]
      · intro hne'; exact absurd hcu hne'
      · have hqr : (QuantizeWithKMeansLab ext small psI).rows = small.rows := by
          rw [quantizeKMeans_eq ext small psI hsne hs3, (hk hcu _ _).1]
        have hqc : (QuantizeWithKMeansLab ext small psI).cols = small.cols := by
          rw [quantizeKMeans_eq ext small psI hsne hs3, (hk hcu _ _).2.1]
        have hqne : (QuantizeWithKMeansLab ext small psI).rows *
            (QuantizeWithKMeansLab ext small psI).cols ≠ 0 := by
          rw [hqr, hqc]; exact hsne
        unfold Process
        rw [if_neg hne, if_neg (by simp [h3])]
        simp only [← hbsI, ← hpsI, ← hw, ← hsmall, hd, hcu, eq_self_iff_true,
          if_true, Bool.false_eq_true, if_false, if_neg hsne]
        rw [if_neg hqne, guard_applyEdge, guard_applyOutline]
    · -- Custom, dither: k-means palette + Floyd-Steinberg
      refine ⟨QuantizeWithKMeansLabDither ext small psI, ?_, ?_, ?_, ?_, ?_⟩
      · rw [quantizeKMeansDither_eq ext small psI hsne hs3,
          (ditherPass_dims _ _).1, hsr]
      · rw [quantizeKMeansDither_eq ext small psI hsne hs3,
          (ditherPass_dims _ _).2.1, hsc]
      · rw [quantizeKMeansDither_eq ext small psI hsne hs3,
          (ditherPass_dims _ _).2.2, hs3]
      · intro hne'; exact absurd hcu hne'
      · have hqr : (QuantizeWithKMeansLabDither ext small psI).rows = small.rows := by
          rw [quantizeKMeansDither_eq ext small psI hsne hs3, (ditherPass_dims _ _).1]
        have hqc : (QuantizeWithKMeansLabDither ext small psI).cols = small.cols := by
          rw [quantizeKMeansDither_eq ext small psI hsne hs3, (ditherPass_dims _ _).2.1]
        have hqne : (QuantizeWithKMeansLabDither ext small psI).rows *
            (QuantizeWithKMeansLabDither ext small psI).cols ≠ 0 := by
          rw [hqr, hqc]; exact hsne
        unfold Process
        rw [if_neg hne, if_neg (by simp [h3])]
        simp only [← hbsI, ← hpsI, ← hw, ← hsmall, hd, hcu, eq_self_iff_true,
          if_true, if_neg hsne]
        rw [if_neg hqne, guard_applyEdge, guard_applyOutline]
  · have hpal : GetPaletteColors p.palettePreset ≠ [] :=
      getPaletteColors_ne_nil _ hcu
    cases hd : p.dither
    · -- fixed preset, no dither
      refine ⟨QuantizeWithFixedPalette small p.palettePreset, ?_, ?_, ?_, ?_, ?_⟩
      · rw [quantizeFixed_eq small _ hsne hs3 hpal, hsr]
      · rw [quantizeFixed_eq small _ hsne hs3 hpal, hsc]
      · rw [quantizeFixed_eq small _ hsne hs3 hpal]
      · intro _ y x _ _
        rw [quantizeFixed_eq small _ hsne hs3 hpal]
        exact findNearestPaletteColor_mem _ _ hpal
      · have hqr : (QuantizeWithFixedPalette small p.palettePreset).rows = small.rows := by
          rw [quantizeFixed_eq small _ hsne hs3 hpal]
        have hqc : (QuantizeWithFixedPalette small p.palettePreset).cols = small.cols := by
          rw [quantizeFixed_eq small _ hsne hs3 hpal]
        have hqne : (QuantizeWithFixedPalette small p.palettePreset).rows *
            (QuantizeWithFixedPalette small p.palettePreset).cols ≠ 0 := by
          rw [hqr, hqc]; exact hsne
        unfold Process
        rw [if_neg hne, if_neg (by simp [h3])]
        simp only [← hbsI, ← hpsI, ← hw, ← hsmall, hd, if_neg hcu,
          Bool.false_eq_true, if_false, if_neg hsne]
        rw [if_neg hqne, guard_applyEdge, guard_applyOutline]
    · -- fixed preset, dither
      refine ⟨QuantizeWithFixedPaletteDither small p.palettePreset, ?_, ?_, ?_, ?_, ?_⟩
      · rw [quantizeFixedDither_eq small _ hsne hs3 hpal, (ditherPass_dims _ _).1, hsr]
      · rw [quantizeFixedDither_eq small _ hsne hs3 hpal, (ditherPass_dims _ _).2.1, hsc]
      · rw [quantizeFixedDither_eq small _ hsne hs3 hpal, (ditherPass_dims _ _).2.2, hs3]
      · intro _ y x hy hx
        rw [quantizeFixedDither_eq small _ hsne hs3 hpal] at hy hx ⊢
        rw [(ditherPass_dims _ _).1] at hy
        rw [(ditherPass_dims _ _).2.1] at hx
        exact ditherPass_px_mem _ hpal small y x hy hx
      · have hqr : (QuantizeWithFixedPaletteDither small p.palettePreset).rows = small.rows := by
          rw [quantizeFixedDither_eq small _ hsne hs3 hpal, (ditherPass_dims _ _).1]
        have hqc : (QuantizeWithFixedPaletteDither small p.palettePreset).cols = small.cols := by
          rw [quantizeFixedDither_eq small _ hsne hs3 hpal, (ditherPass_dims _ _).2.1]
        have hqne : (QuantizeWithFixedPaletteDither small p.palettePreset).rows *
            (QuantizeWithFixedPaletteDither small p.palettePreset).cols ≠ 0 := by
          rw [hqr, hqc]; exact hsne
        unfold Process
        rw [if_neg hne, if_neg (by simp [h3])]
        simp only [← hbsI, ← hpsI, ← hw, ← hsmall, hd, if_neg hcu,
          eq_self_iff_true, if_true, if_neg hsne]
        rw [if_neg hqne, guard_applyEdge, guard_applyOutline]

/-- The two optional post-passes never change the image dimensions. -/
lemma postPasses_dims (ext : ExtFns) (p : Params) (out : Mat)
    (he : ∀ m', (ext.edgeSharpen m').rows = m'.rows ∧
      (ext.edgeSharpen m').cols = m'.cols ∧
      (ext.edgeSharpen m').channels = m'.channels) :
    (if p.outline = true then
        ApplyPixelArtOutline ext.lum
          (if p.edgeEnhance = true then ApplyEdgeEnhancementInPlace ext out else out)
          (clampInt p.outlineThickness 1 5)
      else if p.edgeEnhance = true then ApplyEdgeEnhancementInPlace ext out else out).rows
        = out.rows ∧
    (if p.outline = true then
        ApplyPixelArtOutline ext.lum
          (if p.edgeEnhance = true then ApplyEdgeEnhancementInPlace ext out else out)
          (clampInt p.outlineThickness 1 5)
      else if p.edgeEnhance = true then ApplyEdgeEnhancementInPlace ext out else out).cols
        = out.cols := by
  cases hee : p.edgeEnhance <;> cases ho : p.outline <;>
    simp only [Bool.false_eq_true, if_false, eq_self_iff_true, if_true]
  · trivial
  · obtain ⟨o1, o2, _⟩ := applyOutline_dims ext.lum out (clampInt p.outlineThickness 1 5)
    exact ⟨o1, o2⟩
  · obtain ⟨e1, e2, _⟩ := applyEdgeEnhancement_dims ext out he
    exact ⟨e1, e2⟩
  · obtain ⟨o1, o2, _⟩ := applyOutline_dims ext.lum
      (ApplyEdgeEnhancementInPlace ext out) (clampInt p.outlineThickness 1 5)
    obtain ⟨e1, e2, _⟩ := applyEdgeEnhancement_dims ext out he
    exact ⟨o1.trans e1, o2.trans e2⟩

/-- Shared dimension lemma: under dimension-preserving external stages,
Process preserves width and height. -/
lemma process_dims_aux (ext : ExtFns) (img : Mat) (p : Params)
    (h3 : img.channels = 3) (hr : 0 < img.rows) (hc : 0 < img.cols)
    (hg : ∀ k m', (ext.gaussianBlur k m').rows = m'.rows ∧
      (ext.gaussianBlur k m').cols = m'.cols)
    (hk : p.palettePreset = .Custom → ∀ k m',
      (ext.kmeansQuantize k m').rows = m'.rows ∧
      (ext.kmeansQuantize k m').cols = m'.cols ∧
      (ext.kmeansQuantize k m').channels = 3)
    (he : ∀ m', (ext.edgeSharpen m').rows = m'.rows ∧
      (ext.edgeSharpen m').cols = m'.cols ∧
      (ext.edgeSharpen m').channels = m'.channels) :
    (Process ext img p).rows = img.rows ∧ (Process ext img p).cols = img.cols := by
  obtain ⟨q, hqr, hqc, hq3, _, heq⟩ := process_eq_core ext img p h3 hr hc hg hk
  rw [heq]
  simp only []
  have hqne : q.rows * q.cols ≠ 0 := by
    rw [hqr, hqc]
    exact (Nat.mul_pos (ceilDiv_pos hr (toNat_max_one_pos _))
      (ceilDiv_pos hc (toNat_max_one_pos _))).ne'
  obtain ⟨hp1, hp2⟩ := postPasses_dims ext p
    (ExpandBlocksBGR q img.rows img.cols (clampInt p.blockSize 1 256)) he
  constructor
  · rw [hp1, expand_eq q img.rows img.cols (clampInt p.blockSize 1 256) hqne hq3]
  · rw [hp2, expand_eq q img.rows img.cols (clampInt p.blockSize 1 256) hqne hq3]

/-- C1: for every valid input (non-empty, 3-channel image) and every
parameter record, Process returns an image with exactly the width and
height of the input.  The external OpenCV stages (Gaussian blur, Lab
k-means quantization, unsharp mask) are quantified over all
dimension-preserving realizations, which cv::GaussianBlur, the k-means
reconstruction over smallLab.size(), and the in-place unsharp mask are. -/
theorem process_preserves_dimensions (ext : ExtFns) (img : Mat) (p : Params)
    (h3 : img.channels = 3) (hr : 0 < img.rows) (hc : 0 < img.cols)
    (hg : ∀ k m', (ext.gaussianBlur k m').rows = m'.rows ∧
      (ext.gaussianBlur k m').cols = m'.cols)
    (hk : ∀ k m', (ext.kmeansQuantize k m').rows = m'.rows ∧
      (ext.kmeansQuantize k m').cols = m'.cols ∧
      (ext.kmeansQuantize k m').channels = 3)
    (he : ∀ m', (ext.edgeSharpen m').rows = m'.rows ∧
      (ext.edgeSharpen m').cols = m'.cols ∧
      (ext.edgeSharpen m').channels = m'.channels) :
    (Process ext img p).rows = img.rows ∧ (Process ext img p).cols = img.cols :=
  process_dims_aux ext img p h3 hr hc hg (fun _ => hk) he

/-- Witness for C1 at a concrete 2×2 image and the default parameters. -/
theorem process_preserves_dimensions_witness :
    (Process extId ⟨2, 2, 3, fun _ _ => ⟨10, 20, 30⟩⟩ {}).rows = 2 ∧
      (Process extId ⟨2, 2, 3, fun _ _ => ⟨10, 20, 30⟩⟩ {}).cols = 2 :=
  process_preserves_dimensions extId ⟨2, 2, 3, fun _ _ => ⟨10, 20, 30⟩⟩ {}
    rfl (by decide) (by decide)
    (fun _ _ => ⟨rfl, rfl⟩) (fun _ _ => ⟨rfl, rfl, rfl⟩) (fun _ => ⟨rfl, rfl, rfl⟩)

/-- C2: an empty input, an input with zero width or height, or an input
whose channel count is not 3 makes Process return the empty/null
sentinel, for every parameter record (and, the model being a total
function, without any exception or partial output). -/
theorem process_invalid_input_sentinel (ext : ExtFns) (img : Mat) (p : Params)
    (h : img.rows = 0 ∨ img.cols = 0 ∨ img.channels ≠ 3) :
    Process ext img p = emptyMat := by
  unfold Process
  rcases h with h | h | h
  · rw [if_pos (by rw [h, Nat.zero_mul])]
  · rw [if_pos (by rw [h, Nat.mul_zero])]
  · by_cases hz : img.rows * img.cols = 0
    · rw [if_pos hz]
    · rw [if_neg hz, if_pos h]

/-- Witness for C2 at a concrete 0×5 image. -/
theorem process_invalid_input_sentinel_witness :
    Process extId ⟨0, 5, 3, fun _ _ => ⟨0, 0, 0⟩⟩ {} = emptyMat :=
  process_invalid_input_sentinel extId ⟨0, 5, 3, fun _ _ => ⟨0, 0, 0⟩⟩ {}
    (Or.inl rfl)

/-- ClampInt is idempotent, so pre-clamped parameters clamp to
themselves. -/
lemma clampInt_idem (v lo hi : Int) :
    clampInt (clampInt v lo hi) lo hi = clampInt v lo hi := by
  unfold clampInt
  rcases le_total v hi with h | h <;> rcases le_total lo v with h' | h' <;>
    simp [min_def, max_def] <;> split_ifs <;> omega

/-- C9: Process gives the same result on a parameter record and on its
range-clamped copy (blockSize to [1,256], paletteSize to [2,256],
outlineThickness to [1,5]): the pipeline clamps a local copy itself, so
out-of-range parameters are silently brought into range and never cause
a failure by themselves; the caller's record, passed by value, is never
mutated (the model is a pure function of the record). -/
theorem process_clamped_params_equal (ext : ExtFns) (img : Mat) (p : Params) :
    Process ext img p = Process ext img (clampParams p) := by
  unfold Process
  simp only [clampParams, clampInt_idem]

/-- QuantizeWithFixedPalette maps the empty sentinel to itself. -/
lemma quantizeFixed_emptyMat (preset : PalettePreset) :
    QuantizeWithFixedPalette emptyMat preset = emptyMat := by
  unfold QuantizeWithFixedPalette
  exact if_pos (Or.inl rfl)

/-- C10: fixed-palette direct quantization is idempotent.  A color that
is already a palette entry is at distance 0 from itself, and every entry
at distance 0 is the same color, so the scan maps it to itself; hence a
second application of QuantizeWithFixedPalette changes nothing (this
holds for every preset and every image, including the degenerate guard
paths, which are idempotent on the empty sentinel). -/
theorem quantize_fixed_palette_idempotent (m : Mat) (preset : PalettePreset) :
    QuantizeWithFixedPalette (QuantizeWithFixedPalette m preset) preset =
      QuantizeWithFixedPalette m preset := by
  by_cases hm : m.rows * m.cols = 0 ∨ m.channels ≠ 3
  · have h1 : QuantizeWithFixedPalette m preset = emptyMat := by
      unfold QuantizeWithFixedPalette
      rw [if_pos hm]
    rw [h1, quantizeFixed_emptyMat]
  · push_neg at hm
    obtain ⟨hm1, hm2⟩ := hm
    by_cases hpal : GetPaletteColors preset = []
    · have h1 : QuantizeWithFixedPalette m preset = emptyMat := by
        unfold QuantizeWithFixedPalette
        rw [if_neg (by simp [hm1, hm2]), if_pos hpal]
      rw [h1, quantizeFixed_emptyMat]
    · rw [quantizeFixed_eq m preset hm1 hm2 hpal]
      rw [quantizeFixed_eq ⟨m.rows, m.cols, 3, fun y x =>
          FindNearestPaletteColor (m.px y x) (GetPaletteColors preset)⟩
        preset hm1 rfl hpal]
      congr 1
      funext y x
      exact findNearestPaletteColor_idem _ _

/-- C6 (code defect): GetPaletteColors(NES) has 56 entries, not the 54
announced by the header comment and the spec, and its entries are not
pairwise distinct (black appears twice; 55 distinct colors); the other
six fixed presets do have the stated sizes (16 or 4) and are pairwise
distinct. -/
theorem nes_palette_size_and_duplicates :
    (GetPaletteColors .NES).length = 56 ∧ ¬ (GetPaletteColors .NES).Nodup ∧
      (GetPaletteColors .NES).dedup.length = 55 ∧
      ((GetPaletteColors .Pico8).length = 16 ∧ (GetPaletteColors .EGA).length = 16 ∧
        (GetPaletteColors .Commodore64).length = 16 ∧
        (GetPaletteColors .GameBoy).length = 4 ∧
        (GetPaletteColors .GameBoyPocket).length = 4 ∧
        (GetPaletteColors .CGA).length = 4) ∧
      ((GetPaletteColors .Pico8).Nodup ∧ (GetPaletteColors .EGA).Nodup ∧
        (GetPaletteColors .Commodore64).Nodup ∧ (GetPaletteColors .GameBoy).Nodup ∧
        (GetPaletteColors .GameBoyPocket).Nodup ∧ (GetPaletteColors .CGA).Nodup) := by
  decide

/-- A left fold that accumulates `g` over List.range is the initial value
plus the Finset.range sum. -/
lemma foldl_add_range (g : Nat → Nat) (n init : Nat) :
    (List.range n).foldl (fun a i => a + g i) init =
      init + ∑ i ∈ Finset.range n, g i := by
  induction n generalizing init with
  | zero => simp
  | succ k ih =>
      rw [List.range_succ, List.foldl_append]
      simp only [List.foldl_cons, List.foldl_nil]
      rw [ih, Finset.sum_range_succ]
      omega

/-- The nested summation loop of the block reducer equals the double
Finset.Ico sum over the tile. -/
lemma sumChan_eq (m : Mat) (f : Pix → Nat) (y0 y1 x0 x1 : Nat) :
    sumChan m f y0 y1 x0 x1 =
      ∑ y ∈ Finset.Ico y0 y1, ∑ x ∈ Finset.Ico x0 x1, f (m.px y x) := by
  unfold sumChan
  have hinner : ∀ (acc dy : Nat),
      (List.range (x1 - x0)).foldl
          (fun a dx => a + f (m.px (y0 + dy) (x0 + dx))) acc =
        acc + ∑ dx ∈ Finset.range (x1 - x0), f (m.px (y0 + dy) (x0 + dx)) :=
    fun acc dy =>
      foldl_add_range (fun dx => f (m.px (y0 + dy) (x0 + dx))) (x1 - x0) acc
  simp only [hinner]
  rw [foldl_add_range
    (fun dy => ∑ dx ∈ Finset.range (x1 - x0), f (m.px (y0 + dy) (x0 + dx)))
    (y1 - y0) 0]
  simp only [Finset.sum_Ico_eq_sum_range, Nat.zero_add]

/-- C5 (amended): every cell of the tile grid is the per-channel
arithmetic mean over the corresponding (possibly truncated) tile,
TRUNCATED toward zero (floored), not rounded to nearest: cv::mean's
double quotient is cast to uchar, which truncates. -/
theorem block_reducer_floor_mean (m : Mat) (bsI : Int) (hpos : 0 < bsI)
    (hc : m.cols ≠ 0) (hr : m.rows ≠ 0) (byi bxi : Nat)
    (hby : byi < (BuildBlockColorImageBGR m bsI).rows)
    (hbx : bxi < (BuildBlockColorImageBGR m bsI).cols) :
    (BuildBlockColorImageBGR m bsI).px byi bxi =
      specTileMeanFloor m bsI.toNat byi bxi := by
  have hmax : max 1 bsI = bsI := max_eq_right (by omega)
  rw [buildBlock_rows m bsI hc hr] at hby
  rw [buildBlock_cols m bsI hc hr] at hbx
  rw [buildBlock_px m bsI hc hr byi bxi hby hbx]
  unfold blockMeanPix specTileMeanFloor
  rw [hmax]
  simp only [sumChan_eq]

/-- Witness for the amended C5 at a concrete 1×3 image with blockSize 3. -/
theorem block_reducer_floor_mean_witness :
    (BuildBlockColorImageBGR
        ⟨1, 3, 3, fun _ x => if x = 2 then ⟨2, 2, 2⟩ else ⟨0, 0, 0⟩⟩ 3).px 0 0 =
      specTileMeanFloor
        ⟨1, 3, 3, fun _ x => if x = 2 then ⟨2, 2, 2⟩ else ⟨0, 0, 0⟩⟩ 3 0 0 :=
  block_reducer_floor_mean
    ⟨1, 3, 3, fun _ x => if x = 2 then ⟨2, 2, 2⟩ else ⟨0, 0, 0⟩⟩ 3
    (by decide) (by decide) (by decide) 0 0 (by decide) (by decide)

/-- C5 counterexample: a 1×3 tile with channel values 0, 0, 2 has mean
2/3 per channel; the code stores 0 (floor) where the claim's
round-to-nearest reading gives 1. -/
theorem block_reducer_rounds_down_cex :
    (BuildBlockColorImageBGR
        ⟨1, 3, 3, fun _ x => if x = 2 then ⟨2, 2, 2⟩ else ⟨0, 0, 0⟩⟩ 3).px 0 0 =
        ⟨0, 0, 0⟩ ∧
      specTileMeanRounded
        ⟨1, 3, 3, fun _ x => if x = 2 then ⟨2, 2, 2⟩ else ⟨0, 0, 0⟩⟩ 3 0 0 =
        ⟨1, 1, 1⟩ ∧
      (BuildBlockColorImageBGR
          ⟨1, 3, 3, fun _ x => if x = 2 then ⟨2, 2, 2⟩ else ⟨0, 0, 0⟩⟩ 3).px 0 0 ≠
        specTileMeanRounded
          ⟨1, 3, 3, fun _ x => if x = 2 then ⟨2, 2, 2⟩ else ⟨0, 0, 0⟩⟩ 3 0 0 := by
  decide

/-- C4: the dithered color mappers visit the tile grid once in row-major
order (the definition `ditherLoop` enumerates exactly the source's
left-to-right, top-to-bottom double loop), at each cell clamp, quantize
to the nearest palette color, and diffuse the error with weights 7/16,
3/16, 5/16, 1/16 to the in-bounds right, below-left, below and
below-right neighbors with immediate clamping (definition `ditherVisit`);
consequently every cell of the dithered tile grid is a palette entry —
for the fixed-preset mapper with the preset's table, and for the k-means
mapper with the clustered palette whenever that palette is nonempty (it
always has effectiveClusterCount ≥ 2 entries in the real pipeline). -/
theorem dither_output_cells_in_palette :
    (∀ (preset : PalettePreset) (m : Mat), preset ≠ .Custom →
      ∀ y x, y < (QuantizeWithFixedPaletteDither m preset).rows →
        x < (QuantizeWithFixedPaletteDither m preset).cols →
        (QuantizeWithFixedPaletteDither m preset).px y x ∈ GetPaletteColors preset) ∧
    (∀ (ext : ExtFns) (m : Mat) (psI : Int),
      ext.kmeansPalette (effectiveClusterCount psI (m.rows * m.cols : Nat)).toNat m ≠ [] →
      ∀ y x, y < (QuantizeWithKMeansLabDither ext m psI).rows →
        x < (QuantizeWithKMeansLabDither ext m psI).cols →
        (QuantizeWithKMeansLabDither ext m psI).px y x ∈
          ext.kmeansPalette (effectiveClusterCount psI (m.rows * m.cols : Nat)).toNat m) := by
  constructor
  · intro preset m hpre y x hy hx
    by_cases hinv : m.rows * m.cols = 0 ∨ m.channels ≠ 3
    · exfalso
      have hemp : QuantizeWithFixedPaletteDither m preset = emptyMat := by
        unfold QuantizeWithFixedPaletteDither
        rw [if_pos hinv]
      rw [hemp] at hy
      exact absurd hy (by simp [emptyMat])
    · push_neg at hinv
      obtain ⟨h1, h2⟩ := hinv
      have hpal := getPaletteColors_ne_nil preset hpre
      rw [quantizeFixedDither_eq m preset h1 h2 hpal] at hy hx ⊢
      rw [(ditherPass_dims _ _).1] at hy
      rw [(ditherPass_dims _ _).2.1] at hx
      exact ditherPass_px_mem _ hpal m y x hy hx
  · intro ext m psI hpal y x hy hx
    by_cases hinv : m.rows * m.cols = 0 ∨ m.channels ≠ 3
    · exfalso
      have hemp : QuantizeWithKMeansLabDither ext m psI = emptyMat := by
        unfold QuantizeWithKMeansLabDither
        rw [if_pos hinv]
      rw [hemp] at hy
      exact absurd hy (by simp [emptyMat])
    · push_neg at hinv
      obtain ⟨h1, h2⟩ := hinv
      rw [quantizeKMeansDither_eq ext m psI h1 h2] at hy hx ⊢
      rw [(ditherPass_dims _ _).1] at hy
      rw [(ditherPass_dims _ _).2.1] at hx
      exact ditherPass_px_mem _ hpal m y x hy hx

/-- Witness for C4 at a concrete 2×2 gray grid and the CGA preset. -/
theorem dither_output_cells_in_palette_witness :
    (QuantizeWithFixedPaletteDither ⟨2, 2, 3, fun _ _ => ⟨100, 100, 100⟩⟩ .CGA).px 1 1 ∈
      GetPaletteColors .CGA :=
  dither_output_cells_in_palette.1 .CGA ⟨2, 2, 3, fun _ _ => ⟨100, 100, 100⟩⟩
    (by decide) 1 1 (by decide) (by decide)

/-- C3 counterexample: with dither == false and the CGA preset but
outline == true, Process produces a pixel that is NOT a palette entry.
On the 1×2 image [black, white] with blockSize 1 and outlineThickness 2,
both pixels are edges (color distance 441 ≥ 40), the 5×5 dilation keeps
them marked, and the adaptive darkening turns the white pixel into
(165,165,165), which is not one of the four CGA colors.  (The float
luminance plays no role: the edge test already fires on color distance,
and the darkening uses integer brightness.) -/
theorem process_outline_nonpalette_cex :
    (Process extId ⟨1, 2, 3, fun _ x => if x = 0 then ⟨0, 0, 0⟩ else ⟨255, 255, 255⟩⟩
        { blockSize := 1, paletteSize := 16, preBlur := false, edgeEnhance := false,
          dither := false, outline := true, outlineThickness := 2,
          palettePreset := .CGA }).rows = 1 ∧
    (Process extId ⟨1, 2, 3, fun _ x => if x = 0 then ⟨0, 0, 0⟩ else ⟨255, 255, 255⟩⟩
        { blockSize := 1, paletteSize := 16, preBlur := false, edgeEnhance := false,
          dither := false, outline := true, outlineThickness := 2,
          palettePreset := .CGA }).cols = 2 ∧
    (Process extId ⟨1, 2, 3, fun _ x => if x = 0 then ⟨0, 0, 0⟩ else ⟨255, 255, 255⟩⟩
        { blockSize := 1, paletteSize := 16, preBlur := false, edgeEnhance := false,
          dither := false, outline := true, outlineThickness := 2,
          palettePreset := .CGA }).px 0 1 = ⟨165, 165, 165⟩ ∧
    (Process extId ⟨1, 2, 3, fun _ x => if x = 0 then ⟨0, 0, 0⟩ else ⟨255, 255, 255⟩⟩
        { blockSize := 1, paletteSize := 16, preBlur := false, edgeEnhance := false,
          dither := false, outline := true, outlineThickness := 2,
          palettePreset := .CGA }).px 0 1 ∉ GetPaletteColors .CGA := by
  decide

/-- C3 (amended): with dither == false, a fixed (non-Custom) preset, AND
edgeEnhance == false and outline == false, every pixel of the Process
output is exactly one of the preset's palette entries (the Gaussian
pre-blur, when enabled, is quantified over dimension-preserving
realizations). -/
theorem process_fixed_palette_membership (ext : ExtFns) (img : Mat) (p : Params)
    (hd : p.dither = false) (hpre : p.palettePreset ≠ .Custom)
    (hee : p.edgeEnhance = false) (ho : p.outline = false)
    (h3 : img.channels = 3) (hr : 0 < img.rows) (hc : 0 < img.cols)
    (hg : ∀ k m', (ext.gaussianBlur k m').rows = m'.rows ∧
      (ext.gaussianBlur k m').cols = m'.cols) :
    ∀ y x, y < (Process ext img p).rows → x < (Process ext img p).cols →
      (Process ext img p).px y x ∈ GetPaletteColors p.palettePreset := by
  obtain ⟨q, hqr, hqc, hq3, hmem, heq⟩ :=
    process_eq_core ext img p h3 hr hc hg (fun hcu => absurd hcu hpre)
  intro y x hy hx
  rw [heq] at hy hx ⊢
  simp only [hee, ho, Bool.false_eq_true, if_false] at hy hx ⊢
  have hqne : q.rows * q.cols ≠ 0 := by
    rw [hqr, hqc]
    exact (Nat.mul_pos (ceilDiv_pos hr (toNat_max_one_pos _))
      (ceilDiv_pos hc (toNat_max_one_pos _))).ne'
  rw [expand_eq q img.rows img.cols (clampInt p.blockSize 1 256) hqne hq3] at hy hx ⊢
  have hy' : y < img.rows := hy
  have hx' : x < img.cols := hx
  have hcov1 : y / (max 1 (clampInt p.blockSize 1 256)).toNat < q.rows := by
    rw [hqr]
    exact div_lt_ceilDiv (toNat_max_one_pos _) hy'
  have hcov2 : x / (max 1 (clampInt p.blockSize 1 256)).toNat < q.cols := by
    rw [hqc]
    exact div_lt_ceilDiv (toNat_max_one_pos _) hx'
  show (if _ ∧ _ then q.px _ _ else ⟨0, 0, 0⟩) ∈ _
  rw [if_pos ⟨hcov1, hcov2⟩]
  exact hmem hpre _ _ hcov1 hcov2

/-- Witness for the amended C3 at a concrete 2×2 image (with pre-blur on)
and the GameBoy preset. -/
theorem process_fixed_palette_membership_witness :
    (Process extId ⟨2, 2, 3, fun _ _ => ⟨20, 140, 220⟩⟩
        { blockSize := 2, preBlur := true, edgeEnhance := false, dither := false,
          outline := false, palettePreset := .GameBoy }).px 0 1 ∈
      GetPaletteColors .GameBoy :=
  process_fixed_palette_membership extId ⟨2, 2, 3, fun _ _ => ⟨20, 140, 220⟩⟩
    { blockSize := 2, preBlur := true, edgeEnhance := false, dither := false,
      outline := false, palettePreset := .GameBoy }
    rfl (by decide) rfl rfl rfl (by decide) (by decide)
    (fun _ _ => ⟨rfl, rfl⟩) 0 1 (by decide) (by decide)

/-- ceil(n/bs) is 1 exactly when the whole extent fits in one block. -/
lemma ceilDiv_eq_one {n bs : Nat} (hn : 0 < n) (hbs : 0 < bs) (h : n ≤ bs) :
    (n + bs - 1) / bs = 1 := by
  rw [show n + bs - 1 = (n - 1) + bs by omega, Nat.add_div_right _ hbs,
    Nat.div_eq_of_lt (by omega)]

/-- C7: if the clamped blockSize is at least max(width, height) of a
valid input, the Block Reducer produces a 1×1 tile grid (for any image of
those dimensions, hence in particular for the possibly pre-blurred work
image), and with dither, outline and edgeEnhance all false the Process
output is a single solid color across all pixels. -/
theorem large_block_single_color (ext : ExtFns) (img : Mat) (p : Params)
    (h3 : img.channels = 3) (hr : 0 < img.rows) (hc : 0 < img.cols)
    (hbs : max img.rows img.cols ≤ (max 1 (clampInt p.blockSize 1 256)).toNat)
    (hd : p.dither = false) (ho : p.outline = false) (hee : p.edgeEnhance = false)
    (hg : ∀ k m', (ext.gaussianBlur k m').rows = m'.rows ∧
      (ext.gaussianBlur k m').cols = m'.cols)
    (hk : ∀ k m', (ext.kmeansQuantize k m').rows = m'.rows ∧
      (ext.kmeansQuantize k m').cols = m'.cols ∧
      (ext.kmeansQuantize k m').channels = 3) :
    (∀ m' : Mat, m'.rows = img.rows → m'.cols = img.cols →
      (BuildBlockColorImageBGR m' (clampInt p.blockSize 1 256)).rows = 1 ∧
        (BuildBlockColorImageBGR m' (clampInt p.blockSize 1 256)).cols = 1) ∧
    ∃ c : Pix, ∀ y x, y < (Process ext img p).rows → x < (Process ext img p).cols →
      (Process ext img p).px y x = c := by
  have hbsN : 0 < (max 1 (clampInt p.blockSize 1 256)).toNat := toNat_max_one_pos _
  have hrbs : img.rows ≤ (max 1 (clampInt p.blockSize 1 256)).toNat :=
    le_trans (le_max_left _ _) hbs
  have hcbs : img.cols ≤ (max 1 (clampInt p.blockSize 1 256)).toNat :=
    le_trans (le_max_right _ _) hbs
  constructor
  · intro m' hmr hmc
    constructor
    · rw [buildBlock_rows m' _ (by omega) (by omega), hmr]
      exact ceilDiv_eq_one hr hbsN hrbs
    · rw [buildBlock_cols m' _ (by omega) (by omega), hmc]
      exact ceilDiv_eq_one hc hbsN hcbs
  · obtain ⟨q, hqr, hqc, hq3, _, heq⟩ :=
      process_eq_core ext img p h3 hr hc hg (fun _ => hk)
    have hq1r : q.rows = 1 := by rw [hqr]; exact ceilDiv_eq_one hr hbsN hrbs
    have hq1c : q.cols = 1 := by rw [hqc]; exact ceilDiv_eq_one hc hbsN hcbs
    refine ⟨q.px 0 0, ?_⟩
    intro y x hy hx
    rw [heq] at hy hx ⊢
    simp only [hee, ho, Bool.false_eq_true, if_false] at hy hx ⊢
    have hqne : q.rows * q.cols ≠ 0 := by rw [hq1r, hq1c]; decide
    rw [expand_eq q img.rows img.cols (clampInt p.blockSize 1 256) hqne hq3]
      at hy hx ⊢
    have hy' : y < img.rows := hy
    have hx' : x < img.cols := hx
    have hdy : y / (max 1 (clampInt p.blockSize 1 256)).toNat = 0 :=
      Nat.div_eq_of_lt (lt_of_lt_of_le hy' hrbs)
    have hdx : x / (max 1 (clampInt p.blockSize 1 256)).toNat = 0 :=
      Nat.div_eq_of_lt (lt_of_lt_of_le hx' hcbs)
    show (if _ ∧ _ then q.px _ _ else ⟨0, 0, 0⟩) = q.px 0 0
    rw [hdy, hdx, if_pos ⟨by rw [hq1r]; exact Nat.zero_lt_one,
      by rw [hq1c]; exact Nat.zero_lt_one⟩]

/-- Witness for C7 at a concrete 2×2 solid image, blockSize 8, clustering
(Custom) preset with a dimension-preserving stub for the clustering
stage. -/
theorem large_block_single_color_witness :
    ((∀ m' : Mat, m'.rows = 2 → m'.cols = 2 →
        (BuildBlockColorImageBGR m' (clampInt 8 1 256)).rows = 1 ∧
          (BuildBlockColorImageBGR m' (clampInt 8 1 256)).cols = 1) ∧
      ∃ c : Pix, ∀ y x,
        y < (Process extId ⟨2, 2, 3, fun _ _ => ⟨200, 30, 60⟩⟩
            { blockSize := 8, preBlur := false, edgeEnhance := false,
              dither := false, outline := false }).rows →
        x < (Process extId ⟨2, 2, 3, fun _ _ => ⟨200, 30, 60⟩⟩
            { blockSize := 8, preBlur := false, edgeEnhance := false,
              dither := false, outline := false }).cols →
        (Process extId ⟨2, 2, 3, fun _ _ => ⟨200, 30, 60⟩⟩
            { blockSize := 8, preBlur := false, edgeEnhance := false,
              dither := false, outline := false }).px y x = c) :=
  large_block_single_color extId ⟨2, 2, 3, fun _ _ => ⟨200, 30, 60⟩⟩
    { blockSize := 8, preBlur := false, edgeEnhance := false,
      dither := false, outline := false }
    rfl (by decide) (by decide) (by decide) rfl rfl rfl
    (fun _ _ => ⟨rfl, rfl⟩) (fun _ _ => ⟨rfl, rfl, rfl⟩)

/-- C8 counterexample: the clustering clamp is
max(2, min(paletteSize, total)), NOT a clamp down to the number of
samples: for a 1×1 tile grid (total = 1 sample) and paletteSize 8, the
effective cluster count is 2, which exceeds the single available sample
(so the claim's "in particular ... only one sample" case is false; the
real cv::kmeans asserts N ≥ K there). -/
theorem cluster_clamp_one_sample_cex :
    effectiveClusterCount 8 1 = 2 ∧ ¬ effectiveClusterCount 8 1 ≤ 1 := by
  decide

/-- C8 (amended): for tile grids with at least 2 samples, the effective
cluster count max(2, min(paletteSize, total)) is clamped downward to at
most the number of available samples (and is at least 2), and Process on
the clustering branch returns a non-empty result; for a 1×1 grid the
effective count is 2, exceeding the single sample. -/
theorem cluster_count_clamp_amended (ext : ExtFns) (img : Mat) (p : Params)
    (hcu : p.palettePreset = .Custom)
    (h3 : img.channels = 3) (hr : 0 < img.rows) (hc : 0 < img.cols)
    (hg : ∀ k m', (ext.gaussianBlur k m').rows = m'.rows ∧
      (ext.gaussianBlur k m').cols = m'.cols)
    (hk : ∀ k m', (ext.kmeansQuantize k m').rows = m'.rows ∧
      (ext.kmeansQuantize k m').cols = m'.cols ∧
      (ext.kmeansQuantize k m').channels = 3)
    (he : ∀ m', (ext.edgeSharpen m').rows = m'.rows ∧
      (ext.edgeSharpen m').cols = m'.cols ∧
      (ext.edgeSharpen m').channels = m'.channels) :
    (∀ ps total : Int, 2 ≤ total →
      2 ≤ effectiveClusterCount ps total ∧
        effectiveClusterCount ps total ≤ total) ∧
    (Process ext img p).rows = img.rows ∧ (Process ext img p).cols = img.cols ∧
      Process ext img p ≠ emptyMat := by
  refine ⟨?_, ?_, ?_, ?_⟩
  · intro ps total htot
    refine ⟨le_max_left _ _, ?_⟩
    unfold effectiveClusterCount
    exact max_le htot (min_le_right _ _)
  · exact (process_dims_aux ext img p h3 hr hc hg (fun _ => hk) he).1
  · exact (process_dims_aux ext img p h3 hr hc hg (fun _ => hk) he).2
  · intro hEq
    have hrow := (process_dims_aux ext img p h3 hr hc hg (fun _ => hk) he).1
    rw [hEq] at hrow
    simp only [emptyMat] at hrow
    omega

/-- Witness for the amended C8 at a concrete 2×2 image on the clustering
branch with dimension-preserving stubs. -/
theorem cluster_count_clamp_amended_witness :
    ((∀ ps total : Int, 2 ≤ total →
        2 ≤ effectiveClusterCount ps total ∧
          effectiveClusterCount ps total ≤ total) ∧
      (Process extId ⟨2, 2, 3, fun _ _ => ⟨5, 6, 7⟩⟩ {}).rows = 2 ∧
      (Process extId ⟨2, 2, 3, fun _ _ => ⟨5, 6, 7⟩⟩ {}).cols = 2 ∧
      Process extId ⟨2, 2, 3, fun _ _ => ⟨5, 6, 7⟩⟩ {} ≠ emptyMat) :=
  cluster_count_clamp_amended extId ⟨2, 2, 3, fun _ _ => ⟨5, 6, 7⟩⟩ {}
    rfl rfl (by decide) (by decide)
    (fun _ _ => ⟨rfl, rfl⟩) (fun _ _ => ⟨rfl, rfl, rfl⟩) (fun _ => ⟨rfl, rfl, rfl⟩)
